import Mathlib

/-!
Verification of the `autolint` orchestrator (`autolint/autolint.py` and
`autolint/runners.py`) against its natural-language specification.

The Python code is shallowly embedded as executable Lean definitions:

* External subprocess execution (`subprocess.Popen` + `communicate`) is an
  oracle `Exec : List String → LintResult` mapping an argv vector to the
  captured (return code, stdout bytes, stderr bytes).
* Shell-glob matching (`fnmatch.fnmatch`), an external library capability, is
  an oracle `Matcher : String → String → Bool` (file, pattern).
* Python `dict` / `OrderedDict` values are association lists in insertion
  order; `d[k] = v` is `odInsert` (update in place, else append).
* A `KeyError` on `d[k]` is modelled by lookups returning `Except` carrying
  the missing key, mirroring `e.args[0]`.
* Side effects that the claims talk about (spawning a subprocess, invoking
  the streaming callback) are recorded as an event trace `List Ev`.
-/

namespace Autolint

/-- Captured result of one linter invocation: (returncode, stdout, stderr). -/
abbrev LintResult := Int × String × String

/-- Oracle for `subprocess.Popen(command).communicate()`: maps the argv
vector to the captured (return code, stdout, stderr). -/
abbrev Exec := List String → LintResult

/-- Oracle for `fnmatch.fnmatch(file, pattern)`. -/
abbrev Matcher := String → String → Bool

/-- Per-file results of one linter: the `OrderedDict` built by
`ByFileRunner._execute`, as an association list in insertion order. -/
abbrev FileResults := List (String × LintResult)

/-- Per-linter results of one language: `ret[lang]` in `AutoLint.__lint`. -/
abbrev LinterResults := List (String × FileResults)

/-- The three-level result tree language → linter → file → result returned
by `AutoLint.__lint`. -/
abbrev ResultTree := List (String × LinterResults)

instance : DecidableEq LinterResults := List.hasDecEq

instance : DecidableEq ResultTree := List.hasDecEq

/-- Observable events of a run: a subprocess spawn with its argv vector, or
an invocation of the per-result callback with the captured result. -/
inductive Ev where
  | spawn (command : List String)
  | cbCall (result : LintResult)
deriving DecidableEq, Repr

/-- The spawn events of a trace, in order. -/
def evSpawns : List Ev → List (List String)
  | [] => []
  | Ev.spawn c :: r => c :: evSpawns r
  | Ev.cbCall _ :: r => evSpawns r

instance {ε α : Type} [DecidableEq ε] [DecidableEq α] : DecidableEq (Except ε α) := fun a b =>
  match a, b with
  | .ok x, .ok y => if h : x = y then .isTrue (by rw [h]) else .isFalse (by simp [h])
  | .error x, .error y => if h : x = y then .isTrue (by rw [h]) else .isFalse (by simp [h])
  | .ok _, .error _ => .isFalse (by simp)
  | .error _, .ok _ => .isFalse (by simp)

/-! ### Python string primitives

`'%file_path%' in c` and `c.replace('%file_path%', f)` from
`ByFileRunner._execute`, modelled on the character lists underlying Lean
strings.  Python `str.replace` scans left to right and replaces
non-overlapping occurrences. -/

/-- Python substring test `pat in s` on character lists. -/
def listContains (pat : List Char) : List Char → Bool
  | [] => pat.isEmpty
  | c :: rest => pat.isPrefixOf (c :: rest) || listContains pat rest

/-- Left-to-right non-overlapping replacement of a nonempty pattern, the
scan underlying Python `str.replace`.  The scan consumes at least one
character per step, so a fuel of the scanned list's length always suffices;
the counter only makes the recursion structural. -/
def replaceGo (pat rep : List Char) : Nat → List Char → List Char
  | _, [] => []
  | 0, s => s
  | fuel + 1, c :: rest =>
    if pat.isPrefixOf (c :: rest) then
      rep ++ replaceGo pat rep fuel (List.drop (pat.length - 1) rest)
    else
      c :: replaceGo pat rep fuel rest

/-- Python `s.replace(pat, rep)` on character lists.  For an empty pattern
Python inserts `rep` at every position. -/
def pyReplaceL (pat rep s : List Char) : List Char :=
  match pat with
  | [] => rep ++ s.flatMap (fun c => c :: rep)
  | p :: ps => replaceGo (p :: ps) rep s.length s

/-- Python substring test `pat in s` on strings. -/
def strContains (s pat : String) : Bool :=
  listContains pat.data s.data

/-- Python `s.replace(pat, rep)` on strings. -/
def pyReplace (s pat rep : String) : String :=
  String.mk (pyReplaceL pat.data rep.data s.data)

/-- The placeholder marker `'%file_path%'` recognised by
`ByFileRunner._execute`. -/
def filePathMarker : String := "%file_path%"

/-! ### `runners.py`: the Runner registry and `ByFileRunner` -/

/-- The runner classes present in `runners.py`: the abstract base `Runner`
(whose `run` raises `NotImplementedError`) and `ByFileRunner`. -/
inductive RunnerClass where
  | base
  | byFileRunner
deriving DecidableEq, Repr

/-- The process-wide table `Runner._runners`, a
`collections.defaultdict(lambda: ByFileRunner)`: an association list of the
keys inserted so far.  Nothing in the repository ever assigns into the
table, so entries only appear through defaulted lookups. -/
abbrev Registry := List (String × RunnerClass)

/-- The table starts empty: a fresh `defaultdict` holds no entries. -/
def Runner.runnersInit : Registry := []

/-- `Runner.new_runner(name)`: `cls._runners[name]()`.  A `defaultdict`
lookup returns the stored class when the key is present, and otherwise
inserts the default factory's class under the key (a side effect on the
shared table) and returns it. -/
def Runner.new_runner (reg : Registry) (name : String) : RunnerClass × Registry :=
  match reg.find? (fun p => p.1 = name) with
  | some p => (p.2, reg)
  | none => (RunnerClass.byFileRunner, reg ++ [(name, RunnerClass.byFileRunner)])

/-- Registries reachable from the module's fresh table by `new_runner`
lookups — the only operations the repository performs on the table. -/
inductive ReachableReg : Registry → Prop where
  | init : ReachableReg Runner.runnersInit
  | step {reg : Registry} (name : String) :
      ReachableReg reg → ReachableReg (Runner.new_runner reg name).2

/-- `OrderedDict` assignment `d[k] = v`: update in place when the key is
present, else append. -/
def odInsert (d : FileResults) (k : String) (v : LintResult) : FileResults :=
  match d with
  | [] => [(k, v)]
  | (k', v') :: rest => if k' = k then (k, v) :: rest else (k', v') :: odInsert rest k v

/-- The command actually executed for file `f` in `ByFileRunner._execute`:
with the marker present in some token, every token has all marker
occurrences replaced by the file path; otherwise the path is appended. -/
def buildCommand (needReplace : Bool) (cmd : List String) (f : String) : List String :=
  if needReplace then cmd.map (fun s => pyReplace s filePathMarker f)
  else cmd ++ [f]

/-- The per-file loop of `ByFileRunner._execute`: for each file, build the
command, spawn it, optionally invoke the callback with the captured result,
and store the result under the file in the ordered dict `ret`. -/
def executeLoop (exec : Exec) (needReplace : Bool) (cmd : List String) (useCb : Bool) :
    FileResults → List String → List Ev × FileResults
  | ret, [] => ([], ret)
  | ret, f :: rest =>
    let command := buildCommand needReplace cmd f
    let result := exec command
    let next := executeLoop exec needReplace cmd useCb (odInsert ret f result) rest
    ((Ev.spawn command :: (if useCb then [Ev.cbCall result] else [])) ++ next.1, next.2)

/-- `ByFileRunner._execute(cmd, files, cb)`: decide once whether any token
contains the marker, then run the per-file loop starting from an empty
ordered dict. -/
def ByFileRunner.execute (exec : Exec) (cmd : List String) (files : List String)
    (useCb : Bool) : List Ev × FileResults :=
  executeLoop exec (cmd.any (fun c => strContains c filePathMarker)) cmd useCb [] files

/-- Configuration of one linter under the top-level `linters` section:
`cmd` mandatory, `flags` and `runner` optional keys. -/
structure LinterConf where
  cmd : String
  flags : Option (List String)
  runner : Option String
deriving DecidableEq, Repr

/-- `ByFileRunner.run(linter_configuration, files, cb)`: build the command
as `[cmd]` followed by the configured flags in order, then `_execute`. -/
def ByFileRunner.run (exec : Exec) (lc : LinterConf) (files : List String)
    (useCb : Bool) : List Ev × FileResults :=
  ByFileRunner.execute exec
    (lc.cmd :: (match lc.flags with | some fl => fl | none => [])) files useCb

/-! ### Properties of the execute loop -/

theorem evSpawns_append (a b : List Ev) : evSpawns (a ++ b) = evSpawns a ++ evSpawns b := by
  induction a with
  | nil => rfl
  | cons e r ih => cases e <;> simp [evSpawns, ih]

theorem executeLoop_spawns (exec : Exec) (nr : Bool) (cmd : List String) (useCb : Bool) :
    ∀ (files : List String) (ret : FileResults),
      evSpawns (executeLoop exec nr cmd useCb ret files).1 =
        files.map (buildCommand nr cmd)
  | [], _ => rfl
  | f :: rest, ret => by
    simp only [executeLoop, List.map_cons]
    cases useCb <;>
      simp [evSpawns, evSpawns_append, executeLoop_spawns exec nr cmd _ rest _]

theorem odInsert_fresh (ret : FileResults) (f : String) (v : LintResult)
    (h : ∀ p ∈ ret, p.1 ≠ f) : odInsert ret f v = ret ++ [(f, v)] := by
  induction ret with
  | nil => rfl
  | cons p rest ih =>
    have hp : p.1 ≠ f := h p (List.mem_cons_self p rest)
    simp only [odInsert, if_neg hp, List.cons_append, List.cons.injEq, true_and]
    exact ih (fun q hq => h q (List.mem_cons_of_mem p hq))

theorem executeLoop_full (exec : Exec) (nr : Bool) (cmd : List String) (useCb : Bool) :
    ∀ (files : List String) (ret : FileResults),
      (∀ f ∈ files, ∀ p ∈ ret, p.1 ≠ f) → files.Nodup →
      executeLoop exec nr cmd useCb ret files =
        (files.flatMap (fun f =>
           Ev.spawn (buildCommand nr cmd f) ::
             (if useCb then [Ev.cbCall (exec (buildCommand nr cmd f))] else [])),
         ret ++ files.map (fun f => (f, exec (buildCommand nr cmd f))))
  | [], ret, _, _ => by simp [executeLoop]
  | f :: rest, ret, hfresh, hnd => by
    have hf : ∀ p ∈ ret, p.1 ≠ f := hfresh f (List.mem_cons_self f rest)
    have hins : odInsert ret f (exec (buildCommand nr cmd f)) =
        ret ++ [(f, exec (buildCommand nr cmd f))] := odInsert_fresh ret f _ hf
    have hfresh' : ∀ g ∈ rest, ∀ p ∈ ret ++ [(f, exec (buildCommand nr cmd f))], p.1 ≠ g := by
      intro g hg p hp
      rcases List.mem_append.mp hp with hin | hone
      · exact hfresh g (List.mem_cons_of_mem f hg) p hin
      · have hpq : p = (f, exec (buildCommand nr cmd f)) := by simpa using hone
        subst hpq
        intro hfg
        have hfg' : f = g := by simpa using hfg
        exact (List.nodup_cons.mp hnd).1 (by rw [hfg']; exact hg)
    have ih := executeLoop_full exec nr cmd useCb rest
      (ret ++ [(f, exec (buildCommand nr cmd f))]) hfresh' (List.nodup_cons.mp hnd).2
    simp only [executeLoop, hins, ih, List.flatMap_cons, List.map_cons]
    simp [List.append_assoc]

/-- CLAIM C3.  Placeholder substitution policy of `ByFileRunner._execute`:
when some token of the command template contains the literal marker
`%file_path%`, the command spawned for each file is the template with every
marker occurrence in every token replaced by that file's path; when no
token contains the marker, it is the template with the file's path appended
as the final argument — and exactly one command is spawned per file. -/
theorem c3_placeholder_substitution (exec : Exec) (cmd : List String)
    (files : List String) (useCb : Bool) :
    evSpawns (ByFileRunner.execute exec cmd files useCb).1 =
      files.map (fun f =>
        if cmd.any (fun c => strContains c filePathMarker) then
          cmd.map (fun s => pyReplace s filePathMarker f)
        else cmd ++ [f]) := by
  unfold ByFileRunner.execute
  rw [executeLoop_spawns]
  unfold buildCommand
  cases h : cmd.any (fun c => strContains c filePathMarker) <;> simp [h]

/-- CLAIM C5.  Streaming callback contract of `ByFileRunner._execute` with a
callback: for each file, in iteration order, the subprocess is spawned and
the callback is then invoked exactly once with that file's captured result,
before the next file's subprocess starts; and the keys of the returned
ordered mapping are exactly the files in iteration order. -/
theorem c5_callback_per_file (exec : Exec) (cmd : List String) (files : List String)
    (h : files.Nodup) :
    (ByFileRunner.execute exec cmd files true).1 =
      files.flatMap (fun f =>
        [Ev.spawn (buildCommand (cmd.any (fun c => strContains c filePathMarker)) cmd f),
         Ev.cbCall (exec (buildCommand (cmd.any (fun c => strContains c filePathMarker)) cmd f))])
    ∧ (ByFileRunner.execute exec cmd files true).2 =
      files.map (fun f =>
        (f, exec (buildCommand (cmd.any (fun c => strContains c filePathMarker)) cmd f)))
    ∧ (ByFileRunner.execute exec cmd files true).2.map Prod.fst = files := by
  have hfull := executeLoop_full exec (cmd.any (fun c => strContains c filePathMarker)) cmd true
    files [] (by intro f _ p hp; cases hp) h
  unfold ByFileRunner.execute
  rw [hfull]
  refine ⟨by simp, by simp, by simp [Function.comp_def]⟩

/-- A concrete execution oracle used by witnesses: echoes the argv vector
on stdout and reports exit code 1. -/
def execEcho : Exec := fun c => (1, String.intercalate " " c, "e")

/-- Witness for C5 at a concrete run. -/
theorem c5_callback_per_file_witness :
    (["a.py", "b.py"] : List String).Nodup ∧
    ((ByFileRunner.execute execEcho ["lint"] ["a.py", "b.py"] true).1 =
       (["a.py", "b.py"] : List String).flatMap (fun f =>
         [Ev.spawn (buildCommand ((["lint"] : List String).any
             (fun c => strContains c filePathMarker)) ["lint"] f),
          Ev.cbCall (execEcho (buildCommand ((["lint"] : List String).any
             (fun c => strContains c filePathMarker)) ["lint"] f))])
     ∧ (ByFileRunner.execute execEcho ["lint"] ["a.py", "b.py"] true).2 =
       (["a.py", "b.py"] : List String).map (fun f =>
         (f, execEcho (buildCommand ((["lint"] : List String).any
             (fun c => strContains c filePathMarker)) ["lint"] f)))
     ∧ (ByFileRunner.execute execEcho ["lint"] ["a.py", "b.py"] true).2.map Prod.fst =
       ["a.py", "b.py"]) :=
  ⟨by decide, c5_callback_per_file execEcho ["lint"] ["a.py", "b.py"] (by decide)⟩

/-! ### Properties of the runner registry -/

/-- A `new_runner` lookup either leaves the table unchanged or appends the
looked-up name mapped to the default class. -/
theorem new_runner_snd_cases (reg : Registry) (name : String) :
    (Runner.new_runner reg name).2 = reg ∨
    (Runner.new_runner reg name).2 = reg ++ [(name, RunnerClass.byFileRunner)] := by
  unfold Runner.new_runner
  cases reg.find? (fun q => q.1 = name) <;> simp

/-- Every value stored in a registry reachable from the fresh table is the
default class `ByFileRunner`: the defaultdict's factory is constant and the
repository never assigns into the table. -/
theorem reachable_values_default {reg : Registry} (h : ReachableReg reg) :
    ∀ p ∈ reg, p.2 = RunnerClass.byFileRunner := by
  induction h with
  | init => intro p hp; cases hp
  | step name _ ih =>
    intro p hp
    rcases new_runner_snd_cases _ name with hcase | hcase
    · rw [hcase] at hp; exact ih p hp
    · rw [hcase] at hp
      rcases List.mem_append.mp hp with hin | hone
      · exact ih p hin
      · simp only [List.mem_singleton] at hone
        rw [hone]

/-- CLAIM C8.  `Runner.new_runner(name)` on any registry state the process
can reach always yields the default per-file runner class `ByFileRunner`
(so a linter's `runner` override never selects a different implementation):
the table holds no entries beyond defaulted ones.  Looking up a name not
yet in the table inserts that name, mapped to the default class, as a side
effect on the shared table. -/
theorem c8_registry_always_default (reg : Registry) (h : ReachableReg reg) (name : String) :
    (Runner.new_runner reg name).1 = RunnerClass.byFileRunner
    ∧ (∃ v, (name, v) ∈ (Runner.new_runner reg name).2)
    ∧ ((∀ v, (name, v) ∉ reg) →
        (Runner.new_runner reg name).2 = reg ++ [(name, RunnerClass.byFileRunner)]) := by
  refine ⟨?_, ?_, ?_⟩
  · unfold Runner.new_runner
    cases hfind : reg.find? (fun q => q.1 = name) with
    | some q =>
      have hq := reachable_values_default h q (List.mem_of_find?_eq_some hfind)
      simpa using hq
    | none => rfl
  · unfold Runner.new_runner
    cases hfind : reg.find? (fun q => q.1 = name) with
    | some q =>
      have hmem := List.mem_of_find?_eq_some hfind
      have hkey : q.1 = name := by simpa using List.find?_some hfind
      refine ⟨q.2, ?_⟩
      have hq : (name, q.2) = q := by rw [← hkey]
      simpa [hq] using hmem
    | none => exact ⟨RunnerClass.byFileRunner, by simp⟩
  · intro hnone
    unfold Runner.new_runner
    cases hfind : reg.find? (fun q => q.1 = name) with
    | some q =>
      have hkey : q.1 = name := by simpa using List.find?_some hfind
      have hmem := List.mem_of_find?_eq_some hfind
      have hq : (name, q.2) = q := by rw [← hkey]
      exact absurd (by rw [hq]; exact hmem) (hnone q.2)
    | none => rfl

/-- Witness for C8 at the fresh table and a concrete name, the
unregistered-name hypothesis discharged. -/
theorem c8_registry_always_default_witness :
    (Runner.new_runner Runner.runnersInit "pylint").1 = RunnerClass.byFileRunner
    ∧ (∃ v, ("pylint", v) ∈ (Runner.new_runner Runner.runnersInit "pylint").2)
    ∧ (Runner.new_runner Runner.runnersInit "pylint").2 =
        Runner.runnersInit ++ [("pylint", RunnerClass.byFileRunner)] :=
  ⟨(c8_registry_always_default Runner.runnersInit ReachableReg.init "pylint").1,
   (c8_registry_always_default Runner.runnersInit ReachableReg.init "pylint").2.1,
   (c8_registry_always_default Runner.runnersInit ReachableReg.init "pylint").2.2
     (fun v hv => List.not_mem_nil (("pylint", v)) hv)⟩

/-! ### `autolint.py`: configuration shape and file classification -/

/-- Configuration of one language under `langs`: the optional presence of
the `include` and `linters` keys is tracked so that the `KeyError` paths of
the source can be modelled.  (`include` is a Lean keyword, hence the field
name `includes`.) -/
structure LangConf where
  includes : Option (List String)
  linters : Option (List String)
deriving DecidableEq, Repr

/-- The parsed configuration dictionary (`self.configuration_dict`): the
optional top-level `langs` and `linters` sections, each a mapping in key
order. -/
structure Config where
  langs : Option (List (String × LangConf))
  linters : Option (List (String × LinterConf))
deriving DecidableEq, Repr

/-- The message of `AutoLintConfError` raised in `__classify_files`:
`"Configuration file, key %s not found" % e.args[0]`. -/
def confKeyMsg (key : String) : String :=
  "Configuration file, key " ++ key ++ " not found"

/-- Python `set.add`: append the element unless already present. -/
def setInsert (s : List String) (f : String) : List String :=
  if s.contains f then s else s ++ [f]

/-- `ret[lang].update([f for f in files if fnmatch.fnmatch(f, pattern)])`:
add to the set every file matching the pattern. -/
def setUpdateMatches (matchFn : Matcher) (files : List String) (s : List String)
    (pattern : String) : List String :=
  files.foldl (fun acc f => if matchFn f pattern then setInsert acc f else acc) s

/-- The per-language body of `__classify_files`: union over the language's
`include` patterns of the matching files, or the `KeyError` key when the
`include` key is missing. -/
def classifyLang (matchFn : Matcher) (files : List String) (conf : LangConf) :
    Except String (List String) :=
  match conf.includes with
  | none => .error "include"
  | some pats => .ok (pats.foldl (fun s p => setUpdateMatches matchFn files s p) [])

/-- The loop of `__classify_files` over the `langs` entries in order:
classify each language and drop it when its resulting set is empty; a
`KeyError` aborts the loop. -/
def classifyLangs (matchFn : Matcher) (files : List String) :
    List (String × LangConf) → Except String (List (String × List String))
  | [] => .ok []
  | (lang, conf) :: rest =>
    match classifyLang matchFn files conf with
    | .error k => .error k
    | .ok fs =>
      match classifyLangs matchFn files rest with
      | .error k => .error k
      | .ok others => .ok (if fs.isEmpty then others else (lang, fs) :: others)

/-- `AutoLint.__classify_files(files)`: classify the files into languages
against the configured per-language `include` patterns; a `KeyError` (the
missing `langs` section or a missing `include` key) is converted to an
`AutoLintConfError` naming the missing key. -/
def classify_files (matchFn : Matcher) (cfg : Config) (files : List String) :
    Except String (List (String × List String)) :=
  match cfg.langs with
  | none => .error (confKeyMsg "langs")
  | some ls =>
    match classifyLangs matchFn files ls with
    | .error k => .error (confKeyMsg k)
    | .ok m => .ok m

/-! ### Properties of classification -/

theorem mem_setInsert {s : List String} {g f : String} (h : f ∈ setInsert s g) :
    f ∈ s ∨ f = g := by
  unfold setInsert at h
  by_cases hc : s.contains g
  · rw [if_pos hc] at h; exact Or.inl h
  · rw [if_neg hc] at h
    rcases List.mem_append.mp h with hin | hone
    · exact Or.inl hin
    · exact Or.inr (by simpa using hone)

theorem mem_setUpdateMatches {matchFn : Matcher} {p : String} :
    ∀ {files s : List String} {f : String}, f ∈ setUpdateMatches matchFn files s p →
      f ∈ s ∨ matchFn f p = true := by
  intro files
  induction files with
  | nil => intro s f h; exact Or.inl h
  | cons g rest ih =>
    intro s f h
    unfold setUpdateMatches at h ih
    simp only [List.foldl_cons] at h
    by_cases hm : matchFn g p
    · rw [if_pos hm] at h
      rcases ih h with hin | hmatch
      · rcases mem_setInsert hin with hs | heq
        · exact Or.inl hs
        · exact Or.inr (heq ▸ hm)
      · exact Or.inr hmatch
    · rw [if_neg hm] at h
      exact ih h

theorem mem_classifyLang_foldl {matchFn : Matcher} {files : List String} :
    ∀ {pats s : List String} {f : String},
      f ∈ pats.foldl (fun s p => setUpdateMatches matchFn files s p) s →
      f ∈ s ∨ ∃ p ∈ pats, matchFn f p = true := by
  intro pats
  induction pats with
  | nil => intro s f h; exact Or.inl h
  | cons p rest ih =>
    intro s f h
    simp only [List.foldl_cons] at h
    rcases ih h with hin | ⟨q, hq, hmq⟩
    · rcases mem_setUpdateMatches hin with hs | hm
      · exact Or.inl hs
      · exact Or.inr ⟨p, List.mem_cons_self p rest, hm⟩
    · exact Or.inr ⟨q, List.mem_cons_of_mem p hq, hmq⟩

/-- Soundness of one language's classification: a file in the result
matches one of the language's include patterns. -/
theorem classifyLang_sound {matchFn : Matcher} {files : List String} {conf : LangConf}
    {fs : List String} (h : classifyLang matchFn files conf = .ok fs) :
    ∃ pats, conf.includes = some pats ∧ ∀ f ∈ fs, ∃ p ∈ pats, matchFn f p = true := by
  unfold classifyLang at h
  cases hinc : conf.includes with
  | none => rw [hinc] at h; cases h
  | some pats =>
    rw [hinc] at h
    refine ⟨pats, rfl, ?_⟩
    intro f hf
    have hfs : fs = pats.foldl (fun s p => setUpdateMatches matchFn files s p) [] := by
      cases h; rfl
    rcases mem_classifyLang_foldl (hfs ▸ hf) with hin | hex
    · cases hin
    · exact hex

/-- Every entry produced by the classification loop is a language of the
configuration whose set is nonempty and was produced by `classifyLang`. -/
theorem mem_classifyLangs {matchFn : Matcher} {files : List String} :
    ∀ {ls : List (String × LangConf)} {m : List (String × List String)}
      {lang : String} {fs : List String},
      classifyLangs matchFn files ls = .ok m → (lang, fs) ∈ m →
      fs ≠ [] ∧ ∃ conf, (lang, conf) ∈ ls ∧ classifyLang matchFn files conf = .ok fs := by
  intro ls
  induction ls with
  | nil =>
    intro m lang fs h hmem
    cases h
    cases hmem
  | cons e rest ih =>
    intro m lang fs h hmem
    obtain ⟨lang0, conf0⟩ := e
    cases hc : classifyLang matchFn files conf0 with
    | error k => simp only [classifyLangs, hc] at h; exact Except.noConfusion h
    | ok fs0 =>
      cases hr : classifyLangs matchFn files rest with
      | error k => simp only [classifyLangs, hc, hr] at h; exact Except.noConfusion h
      | ok others =>
        simp only [classifyLangs, hc, hr, Except.ok.injEq] at h
        by_cases he : fs0.isEmpty
        · rw [if_pos he] at h
          subst h
          obtain ⟨hne, conf, hcm, hcl⟩ := ih hr hmem
          exact ⟨hne, conf, List.mem_cons_of_mem _ hcm, hcl⟩
        · rw [if_neg he] at h
          subst h
          rcases List.mem_cons.mp hmem with hone | hin
          · have h1 : lang = lang0 := congrArg Prod.fst hone
            have h2 : fs = fs0 := congrArg Prod.snd hone
            refine ⟨?_, conf0, ?_, ?_⟩
            · rw [h2]; simpa [List.isEmpty_iff] using he
            · rw [h1]; exact List.mem_cons_self _ _
            · rw [h2]; exact hc
          · obtain ⟨hne, conf, hcm, hcl⟩ := ih hr hin
            exact ⟨hne, conf, List.mem_cons_of_mem _ hcm, hcl⟩

/-- A configuration under which two languages share the include pattern
`a.py`, exhibiting classification overlap. -/
def cfgOverlap : Config :=
  { langs := some [("c", { includes := some ["a.py"], linters := some [] }),
                   ("py", { includes := some ["a.py"], linters := some [] })],
    linters := some [] }

/-- CLAIM C4.  Classification soundness: a successful classification never
contains a language with an empty file set; every file listed under a
language matches at least one of that language's include patterns; and a
single file may appear under several languages when their patterns overlap
(witnessed by a concrete configuration, with exact pattern matching as the
glob oracle). -/
theorem c4_classification_sound :
    (∀ (matchFn : Matcher) (cfg : Config) (files : List String)
       (m : List (String × List String)) (lang : String) (fs : List String),
       classify_files matchFn cfg files = .ok m → (lang, fs) ∈ m →
       fs ≠ [] ∧ ∃ ls conf pats, cfg.langs = some ls ∧ (lang, conf) ∈ ls ∧
         conf.includes = some pats ∧ ∀ f ∈ fs, ∃ p ∈ pats, matchFn f p = true)
    ∧ classify_files (fun f p => f = p) cfgOverlap ["a.py"] =
        .ok [("c", ["a.py"]), ("py", ["a.py"])] := by
  constructor
  · intro matchFn cfg files m lang fs h hmem
    cases hl : cfg.langs with
    | none => simp only [classify_files, hl] at h; exact Except.noConfusion h
    | some ls =>
      cases hcl : classifyLangs matchFn files ls with
      | error k => simp only [classify_files, hl, hcl] at h; exact Except.noConfusion h
      | ok m' =>
        simp only [classify_files, hl, hcl, Except.ok.injEq] at h
        subst h
        obtain ⟨hne, conf, hcm, hclang⟩ := mem_classifyLangs hcl hmem
        obtain ⟨pats, hinc, hsound⟩ := classifyLang_sound hclang
        exact ⟨hne, ls, conf, pats, rfl, hcm, hinc, hsound⟩
  · decide

/-- Witness for C4's universally quantified part at a concrete run. -/
theorem c4_classification_sound_witness :
    classify_files (fun f p => f = p) cfgOverlap ["a.py"] =
      .ok [("c", ["a.py"]), ("py", ["a.py"])]
    ∧ ("c", ["a.py"]) ∈ [("c", ["a.py"]), ("py", ["a.py"])]
    ∧ ((["a.py"] : List String) ≠ [] ∧ ∃ ls conf pats, cfgOverlap.langs = some ls ∧
        ("c", conf) ∈ ls ∧ conf.includes = some pats ∧
        ∀ f ∈ (["a.py"] : List String), ∃ p ∈ pats, (fun (f p : String) => decide (f = p)) f p = true) :=
  ⟨by decide, by decide,
    c4_classification_sound.1 (fun f p => f = p) cfgOverlap ["a.py"]
      [("c", ["a.py"]), ("py", ["a.py"])] "c" ["a.py"] (by decide) (by decide)⟩

/-- CLAIM C6.  `__classify_files` fails with an `AutoLintConfError` exactly
when the configuration lacks the `langs` key or some language entry lacks
the `include` key, and the error message names the missing key; on all
other (well-shaped) inputs it returns normally.  The embedding is a pure
function of its inputs, matching the absence of side effects. -/
theorem c6_classify_errors (matchFn : Matcher) (cfg : Config) (files : List String) :
    (cfg.langs = none →
      classify_files matchFn cfg files = .error (confKeyMsg "langs"))
    ∧ (∀ ls, cfg.langs = some ls →
        ((∃ e ∈ ls, (e : String × LangConf).2.includes = none) →
          classify_files matchFn cfg files = .error (confKeyMsg "include"))
        ∧ ((∀ e ∈ ls, (e : String × LangConf).2.includes ≠ none) →
          ∃ m, classify_files matchFn cfg files = .ok m)) := by
  constructor
  · intro h
    simp only [classify_files, h]
  · intro ls hls
    constructor
    · intro ⟨e, hmem, hnone⟩
      have : classifyLangs matchFn files ls = .error "include" := by
        clear hls
        induction ls with
        | nil => cases hmem
        | cons e0 rest ih =>
          obtain ⟨lang0, conf0⟩ := e0
          rcases List.mem_cons.mp hmem with hone | hin
          · subst hone
            unfold classifyLangs classifyLang
            rw [hnone]
          · unfold classifyLangs
            cases hc : classifyLang matchFn files conf0 with
            | error k =>
              unfold classifyLang at hc
              cases hi : conf0.includes with
              | none => rw [hi] at hc; cases hc; rfl
              | some pats => rw [hi] at hc; cases hc
            | ok fs0 => rw [ih hin]
      simp only [classify_files, hls, this]
    · intro hall
      have : ∃ m, classifyLangs matchFn files ls = .ok m := by
        clear hls
        induction ls with
        | nil => exact ⟨[], rfl⟩
        | cons e0 rest ih =>
          obtain ⟨lang0, conf0⟩ := e0
          obtain ⟨m0, hm0⟩ := ih (fun e he => hall e (List.mem_cons_of_mem _ he))
          have hinc := hall (lang0, conf0) (List.mem_cons_self _ _)
          cases hi : conf0.includes with
          | none => exact absurd hi hinc
          | some pats =>
            refine ⟨if (pats.foldl (fun s p => setUpdateMatches matchFn files s p) []).isEmpty
                    then m0
                    else (lang0, pats.foldl (fun s p => setUpdateMatches matchFn files s p) []) :: m0, ?_⟩
            unfold classifyLangs classifyLang
            rw [hi, hm0]
      obtain ⟨m, hm⟩ := this
      exact ⟨m, by simp only [classify_files, hls, hm]⟩

/-- A configuration whose single language lacks the `include` key. -/
def cfgNoInclude : Config :=
  { langs := some [("py", { includes := none, linters := some ["flake8"] })],
    linters := some [] }

/-- Witness for C6: the missing-`langs` and the missing-`include` branches
at concrete configurations, hypotheses discharged. -/
theorem c6_classify_errors_witness :
    classify_files (fun f p => f = p) { langs := none, linters := none } ["a.py"] =
      .error (confKeyMsg "langs")
    ∧ classify_files (fun f p => f = p) cfgNoInclude ["a.py"] =
      .error (confKeyMsg "include") :=
  ⟨(c6_classify_errors (fun f p => f = p) { langs := none, linters := none } ["a.py"]).1 rfl,
   ((c6_classify_errors (fun f p => f = p) cfgNoInclude ["a.py"]).2
      [("py", { includes := none, linters := some ["flake8"] })] rfl).1
     ⟨("py", { includes := none, linters := some ["flake8"] }), by decide, rfl⟩⟩

/-! ### `AutoLint.__lint`: per-language, per-linter dispatch

A Python `KeyError` is the constructor `PyExc.keyError` carrying
`e.args[0]`; `NotImplementedError` (raised by the abstract base `Runner`'s
`run`, never reached through `new_runner`) is `PyExc.notImplementedError`.
On abort, the model also records the local dict `ret` as it stood when the
exception was raised — the partial result tree dropped by the `raise`. -/

/-- A Python exception crossing `__lint`'s loop body. -/
inductive PyExc where
  | keyError (key : String)
  | notImplementedError
deriving DecidableEq, Repr

/-- `self.configuration_dict['langs'][lang]['linters']`: three lookups,
each able to raise a `KeyError` carrying its key. -/
def getLinters (cfg : Config) (lang : String) : Except PyExc (List String) :=
  match cfg.langs with
  | none => .error (.keyError "langs")
  | some ld =>
    match ld.find? (fun p => p.1 = lang) with
    | none => .error (.keyError lang)
    | some p =>
      match p.2.linters with
      | none => .error (.keyError "linters")
      | some ls => .ok ls

/-- `self.configuration_dict['linters'][linter]`: a missing top-level
`linters` section raises `KeyError('linters')`, a missing linter entry
raises `KeyError(<linter>)`. -/
def linterConfGet (cfg : Config) (linter : String) : Except PyExc LinterConf :=
  match cfg.linters with
  | none => .error (.keyError "linters")
  | some ld =>
    match ld.find? (fun p => p.1 = linter) with
    | none => .error (.keyError linter)
    | some p => .ok p.2

/-- `runner.run(linter_conf, lang_files, cb)` dispatched on the class
returned by the registry: the base `Runner.run` raises
`NotImplementedError`, `ByFileRunner.run` executes per file. -/
def RunnerClass.runOn (cls : RunnerClass) (exec : Exec) (lc : LinterConf)
    (files : List String) (useCb : Bool) : Except PyExc (List Ev × FileResults) :=
  match cls with
  | .byFileRunner => .ok (ByFileRunner.run exec lc files useCb)
  | .base => .error .notImplementedError

/-- The inner loop of `__lint` over one language's linter names: look up
the linter's configuration, resolve the runner through the registry (the
`runner` override when present, else the linter name), run it, and store
the results under the linter.  On an exception the results collected so
far for this language (`ret[lang]` at raise time) accompany the error. -/
def lintLinters (exec : Exec) (cfg : Config) (useCb : Bool) (lfs : List String) :
    Registry → List String → List Ev × Registry × Except (PyExc × LinterResults) LinterResults
  | reg, [] => ([], reg, .ok [])
  | reg, linter :: rest =>
    match linterConfGet cfg linter with
    | .error e => ([], reg, .error (e, []))
    | .ok lc =>
      let rname := match lc.runner with | some r => r | none => linter
      let rr := Runner.new_runner reg rname
      match rr.1.runOn exec lc lfs useCb with
      | .error e => ([], rr.2, .error (e, []))
      | .ok run1 =>
        let next := lintLinters exec cfg useCb lfs rr.2 rest
        match next.2.2 with
        | .error ep => (run1.1 ++ next.1, next.2.1, .error (ep.1, (linter, run1.2) :: ep.2))
        | .ok res => (run1.1 ++ next.1, next.2.1, .ok ((linter, run1.2) :: res))

/-- The outer loop of `__lint` over the classified languages: `ret[lang]`
is created empty before the `linters` lookup, so on an exception the
partial tree carried by the error ends with the offending language's
partial entry.  The error also records the loop variable `lang` at raise
time, which the `except KeyError` handler uses. -/
def lintLangs (exec : Exec) (cfg : Config) (useCb : Bool) :
    Registry → List (String × List String) →
      List Ev × Registry × Except (String × PyExc × ResultTree) ResultTree
  | reg, [] => ([], reg, .ok [])
  | reg, (lang, lfs) :: rest =>
    match getLinters cfg lang with
    | .error e => ([], reg, .error (lang, e, [(lang, [])]))
    | .ok linters =>
      let inner := lintLinters exec cfg useCb lfs reg linters
      match inner.2.2 with
      | .error ep => (inner.1, inner.2.1, .error (lang, ep.1, [(lang, ep.2)]))
      | .ok lres =>
        let next := lintLangs exec cfg useCb inner.2.1 rest
        match next.2.2 with
        | .error et => (inner.1 ++ next.1, next.2.1, .error (et.1, et.2.1, (lang, lres) :: et.2.2))
        | .ok t => (inner.1 ++ next.1, next.2.1, .ok ((lang, lres) :: t))

/-- What `__lint` raises: the `except KeyError` handler converts a
`KeyError` into an `AutoLintConfError` whose message depends on whether the
missing key equals `'linters'` (then it names the current language);
`NotImplementedError` is not caught and propagates raw.  The partial tree
(the local `ret` discarded by the raise) is kept alongside for analysis. -/
inductive LintRaise where
  | confError (msg : String) (collected : ResultTree)
  | notImplementedError
deriving DecidableEq, Repr

/-- The message produced by `__lint`'s `except KeyError` handler. -/
def lintErrMsg (lang key : String) : String :=
  if key = "linters" then "Linter not specified for " ++ lang
  else "Missing \"" ++ key ++ "\" at configuration"

/-- `AutoLint.__lint(files, cb)`: run every configured linter of every
classified language and assemble the three-level result tree, converting a
`KeyError` via the handler. -/
def lint (exec : Exec) (cfg : Config) (useCb : Bool) (reg : Registry)
    (files : List (String × List String)) :
    List Ev × Registry × Except LintRaise ResultTree :=
  let r := lintLangs exec cfg useCb reg files
  (r.1, r.2.1,
    match r.2.2 with
    | .ok t => .ok t
    | .error (lang, PyExc.keyError k, pt) => .error (.confError (lintErrMsg lang k) pt)
    | .error (_, PyExc.notImplementedError, _) => .error .notImplementedError)

/-! ### Decomposition of the dispatch loops around an abort -/

/-- A successful run of the inner linter loop on a prefix, followed by a
linter whose configuration lookup raises: the loop stops right there, with
no event from the failing linter and the prefix's results as the partial
state. -/
theorem lintLinters_prefix_fail (exec : Exec) (cfg : Config) (useCb : Bool)
    (lfs : List String) :
    ∀ (ls₁ : List String) (reg : Registry) (ev : List Ev) (reg₁ : Registry)
      (res : LinterResults) (bad : String) (ls₂ : List String) (e : PyExc),
      lintLinters exec cfg useCb lfs reg ls₁ = (ev, reg₁, .ok res) →
      linterConfGet cfg bad = .error e →
      lintLinters exec cfg useCb lfs reg (ls₁ ++ bad :: ls₂) = (ev, reg₁, .error (e, res))
  | [], reg, ev, reg₁, res, bad, ls₂, e => by
    intro h hbad
    simp only [lintLinters, Prod.mk.injEq, Except.ok.injEq] at h
    obtain ⟨h1, h2, h3⟩ := h
    subst h1; subst h2; subst h3
    simp only [List.nil_append, lintLinters, hbad]
  | l :: rest, reg, ev, reg₁, res, bad, ls₂, e => by
    intro h hbad
    simp only [lintLinters] at h
    cases hconf : linterConfGet cfg l with
    | error e0 =>
      simp only [hconf, Prod.mk.injEq] at h
      exact absurd h.2.2 (by simp)
    | ok lc =>
      simp only [hconf] at h
      cases hrun : (Runner.new_runner reg
          (match lc.runner with | some r => r | none => l)).1.runOn exec lc lfs useCb with
      | error e0 =>
        simp only [hrun, Prod.mk.injEq] at h
        exact absurd h.2.2 (by simp)
      | ok run1 =>
        simp only [hrun] at h
        cases hnext : (lintLinters exec cfg useCb lfs
            (Runner.new_runner reg
              (match lc.runner with | some r => r | none => l)).2 rest).2.2 with
        | error ep =>
          simp only [hnext, Prod.mk.injEq] at h
          exact absurd h.2.2 (by simp)
        | ok res' =>
          simp only [hnext, Prod.mk.injEq, Except.ok.injEq] at h
          obtain ⟨h1, h2, h3⟩ := h
          have hrest : lintLinters exec cfg useCb lfs
              (Runner.new_runner reg
                (match lc.runner with | some r => r | none => l)).2 rest =
              ((lintLinters exec cfg useCb lfs (Runner.new_runner reg
                  (match lc.runner with | some r => r | none => l)).2 rest).1,
               (lintLinters exec cfg useCb lfs (Runner.new_runner reg
                  (match lc.runner with | some r => r | none => l)).2 rest).2.1,
               .ok res') := by
            rw [← hnext]
          have ih := lintLinters_prefix_fail exec cfg useCb lfs rest
            (Runner.new_runner reg (match lc.runner with | some r => r | none => l)).2
            _ _ res' bad ls₂ e hrest hbad
          simp only [List.cons_append, lintLinters, hconf, hrun, List.append_eq, ih]
          rw [← h1, ← h2, ← h3]

/-- Appending languages after a successful prefix: the traces concatenate,
and an abort in the tail carries the prefix's tree in front of its partial
state — the results of earlier languages are kept intact. -/
theorem lintLangs_append_error (exec : Exec) (cfg : Config) (useCb : Bool) :
    ∀ (fs₁ : List (String × List String)) (reg : Registry) (ev₁ : List Ev)
      (reg₁ : Registry) (t₁ : ResultTree) (fs₂ : List (String × List String))
      (ev₂ : List Ev) (reg₂ : Registry) (l : String) (e : PyExc) (p : ResultTree),
      lintLangs exec cfg useCb reg fs₁ = (ev₁, reg₁, .ok t₁) →
      lintLangs exec cfg useCb reg₁ fs₂ = (ev₂, reg₂, .error (l, e, p)) →
      lintLangs exec cfg useCb reg (fs₁ ++ fs₂) = (ev₁ ++ ev₂, reg₂, .error (l, e, t₁ ++ p))
  | [], reg, ev₁, reg₁, t₁, fs₂, ev₂, reg₂, l, e, p => by
    intro h1 h2
    simp only [lintLangs, Prod.mk.injEq, Except.ok.injEq] at h1
    obtain ⟨ha, hb, hc⟩ := h1
    subst ha; subst hb; subst hc
    simpa using h2
  | (lang0, lfs0) :: rest, reg, ev₁, reg₁, t₁, fs₂, ev₂, reg₂, l, e, p => by
    intro h1 h2
    simp only [lintLangs] at h1
    cases hg : getLinters cfg lang0 with
    | error e0 =>
      simp only [hg, Prod.mk.injEq] at h1
      exact absurd h1.2.2 (by simp)
    | ok linters =>
      simp only [hg] at h1
      cases hinner : (lintLinters exec cfg useCb lfs0 reg linters).2.2 with
      | error ep =>
        simp only [hinner, Prod.mk.injEq] at h1
        exact absurd h1.2.2 (by simp)
      | ok lres =>
        simp only [hinner] at h1
        cases hnext : (lintLangs exec cfg useCb
            (lintLinters exec cfg useCb lfs0 reg linters).2.1 rest).2.2 with
        | error et =>
          simp only [hnext, Prod.mk.injEq] at h1
          exact absurd h1.2.2 (by simp)
        | ok t' =>
          simp only [hnext, Prod.mk.injEq, Except.ok.injEq] at h1
          obtain ⟨ha, hb, hc⟩ := h1
          have hrest : lintLangs exec cfg useCb
              (lintLinters exec cfg useCb lfs0 reg linters).2.1 rest =
              ((lintLangs exec cfg useCb
                 (lintLinters exec cfg useCb lfs0 reg linters).2.1 rest).1,
               (lintLangs exec cfg useCb
                 (lintLinters exec cfg useCb lfs0 reg linters).2.1 rest).2.1,
               .ok t') := by
            rw [← hnext]
          have hb' : (lintLangs exec cfg useCb
              (lintLinters exec cfg useCb lfs0 reg linters).2.1 rest).2.1 = reg₁ := hb
          have ih := lintLangs_append_error exec cfg useCb rest
            (lintLinters exec cfg useCb lfs0 reg linters).2.1 _ _ t' fs₂ ev₂ reg₂ l e p
            hrest (hb' ▸ h2)
          simp only [List.cons_append, lintLangs, hg, hinner, List.append_eq, ih]
          rw [← ha, ← hc]
          simp [List.append_assoc]

/-- A language whose `linters` key lookup raises aborts the outer loop on
the spot: no event, the partial tree ends with the language's empty entry. -/
theorem lintLangs_head_keyfail (exec : Exec) (cfg : Config) (useCb : Bool)
    (reg : Registry) (lang : String) (lfs : List String)
    (fs₂ : List (String × List String)) (e : PyExc)
    (hg : getLinters cfg lang = .error e) :
    lintLangs exec cfg useCb reg ((lang, lfs) :: fs₂) =
      ([], reg, .error (lang, e, [(lang, [])])) := by
  simp only [lintLangs, hg]

/-- A language whose inner linter loop aborts propagates that abort with
the language's partial entry, ignoring the remaining languages. -/
theorem lintLangs_head_innerfail (exec : Exec) (cfg : Config) (useCb : Bool)
    (reg : Registry) (lang : String) (lfs : List String)
    (fs₂ : List (String × List String)) (linters : List String)
    (ev : List Ev) (reg' : Registry) (e : PyExc) (part : LinterResults)
    (hg : getLinters cfg lang = .ok linters)
    (hi : lintLinters exec cfg useCb lfs reg linters = (ev, reg', .error (e, part))) :
    lintLangs exec cfg useCb reg ((lang, lfs) :: fs₂) =
      (ev, reg', .error (lang, e, [(lang, part)])) := by
  simp only [lintLangs, hg, hi]

/-- An execution oracle with constant successful output, used by concrete
counterexamples and witnesses. -/
def execZero : Exec := fun _ => (0, "out", "")

/-- A configuration whose language `py` lists the linters `good` (defined)
and `bad` (absent from the top-level `linters` section). -/
def cfgBadLinter : Config :=
  { langs := some [("py", { includes := some ["*.py"], linters := some ["good", "bad"] })],
    linters := some [("good", { cmd := "lintgood", flags := none, runner := none })] }

/-- Counterexample to CLAIM C2 as stated.  With language `py` configured
with linters `[good, bad]` where `bad` is absent from the top-level
`linters` mapping, the run aborts with a ConfigError for the offending
language `py` — yet a subprocess for that very language (linter `good` on
`a.py`) was already spawned before the abort, so the run does not abort
"before any subprocess is spawned for the offending language". -/
theorem c2_dispatch_abort_counterexample :
    (lint execZero cfgBadLinter false [] [("py", ["a.py"])]).2.2 =
      .error (.confError ("Missing \"bad\" at configuration")
        [("py", [("good", [("a.py", (0, "out", ""))])])])
    ∧ (lint execZero cfgBadLinter false [] [("py", ["a.py"])]).1 =
      [Ev.spawn ["lintgood", "a.py"]]
    ∧ evSpawns (lint execZero cfgBadLinter false [] [("py", ["a.py"])]).1 ≠ [] :=
  ⟨by decide, by decide, by decide⟩

/-- CLAIM C2 (amended).  A ConfigError during dispatch aborts the run
before any subprocess is spawned for the offending *linter*: when the
`linters` key is missing for a language nothing at all is spawned for that
language, and when a referenced linter name is absent from the top-level
`linters` mapping nothing is spawned for that linter, though earlier
linters of the same language have already run.  In both cases the events
and partial results of languages processed earlier in the iteration are
kept intact in the state at abort time, prefixed unchanged to the partial
result tree that accompanies the error. -/
theorem c2_dispatch_abort (exec : Exec) (cfg : Config) (useCb : Bool) (reg : Registry)
    (fs₁ fs₂ : List (String × List String)) (lang : String) (lfs : List String)
    (ev₁ : List Ev) (reg₁ : Registry) (t₁ : ResultTree)
    (hpre : lintLangs exec cfg useCb reg fs₁ = (ev₁, reg₁, .ok t₁)) :
    (getLinters cfg lang = .error (PyExc.keyError "linters") →
      lint exec cfg useCb reg (fs₁ ++ (lang, lfs) :: fs₂) =
        (ev₁, reg₁, .error (.confError ("Linter not specified for " ++ lang)
          (t₁ ++ [(lang, [])]))))
    ∧ (∀ (linters₁ : List String) (bad : String) (linters₂ : List String)
        (evL : List Ev) (regL : Registry) (resL : LinterResults),
        getLinters cfg lang = .ok (linters₁ ++ bad :: linters₂) →
        lintLinters exec cfg useCb lfs reg₁ linters₁ = (evL, regL, .ok resL) →
        linterConfGet cfg bad = .error (PyExc.keyError bad) →
        bad ≠ "linters" →
        lint exec cfg useCb reg (fs₁ ++ (lang, lfs) :: fs₂) =
          (ev₁ ++ evL, regL, .error (.confError ("Missing \"" ++ bad ++ "\" at configuration")
            (t₁ ++ [(lang, resL)])))) := by
  constructor
  · intro hg
    have hhead := lintLangs_head_keyfail exec cfg useCb reg₁ lang lfs fs₂ _ hg
    have happ := lintLangs_append_error exec cfg useCb fs₁ reg ev₁ reg₁ t₁
      ((lang, lfs) :: fs₂) [] reg₁ lang (PyExc.keyError "linters") [(lang, [])] hpre hhead
    simp only [lint, happ, lintErrMsg, List.append_nil]
    simp
  · intro linters₁ bad linters₂ evL regL resL hg hok hbad hne
    have hinner := lintLinters_prefix_fail exec cfg useCb lfs linters₁ reg₁ evL regL resL
      bad linters₂ (PyExc.keyError bad) hok hbad
    have hhead := lintLangs_head_innerfail exec cfg useCb reg₁ lang lfs fs₂ _
      evL regL (PyExc.keyError bad) resL hg hinner
    have happ := lintLangs_append_error exec cfg useCb fs₁ reg ev₁ reg₁ t₁
      ((lang, lfs) :: fs₂) evL regL lang (PyExc.keyError bad) [(lang, resL)] hpre hhead
    simp only [lint, happ, lintErrMsg, if_neg hne]

/-- Witness for C2's amended statement: with `cfgBadLinter`, no prior
languages, prefix linter `good` and missing linter `bad`, the run aborts
after `good`'s single spawn with the partial results preserved. -/
theorem c2_dispatch_abort_witness :
    lintLangs execZero cfgBadLinter false [] [] = ([], [], .ok [])
    ∧ getLinters cfgBadLinter "py" = .ok (["good"] ++ "bad" :: [])
    ∧ lintLinters execZero cfgBadLinter false ["a.py"] [] ["good"] =
        ([Ev.spawn ["lintgood", "a.py"]], [("good", RunnerClass.byFileRunner)],
         .ok [("good", [("a.py", (0, "out", ""))])])
    ∧ linterConfGet cfgBadLinter "bad" = .error (PyExc.keyError "bad")
    ∧ lint execZero cfgBadLinter false [] ([] ++ ("py", ["a.py"]) :: []) =
        ([] ++ [Ev.spawn ["lintgood", "a.py"]], [("good", RunnerClass.byFileRunner)],
         .error (.confError ("Missing \"" ++ "bad" ++ "\" at configuration")
           ([] ++ [("py", [("good", [("a.py", (0, "out", ""))])])]))) :=
  ⟨by decide, by decide, by decide, by decide,
    (c2_dispatch_abort execZero cfgBadLinter false [] [] [] "py" ["a.py"] [] [] []
      (by decide)).2 ["good"] "bad" [] [Ev.spawn ["lintgood", "a.py"]]
      [("good", RunnerClass.byFileRunner)] [("good", [("a.py", (0, "out", ""))])]
      (by decide) (by decide) (by decide) (by decide)⟩

/-- CLAIM C9.  When the configuration lacks the top-level `linters` section
but a classified language is well-formed with a nonempty linter list,
dispatch raises `AutoLintConfError('Linter not specified for <language>')`
— the message for a missing per-language `linters` key, naming the current
language — because the `KeyError` key `'linters'` cannot be told apart
between the two lookups. -/
theorem c9_missing_linters_section (exec : Exec) (useCb : Bool) (reg : Registry)
    (cfg : Config) (lang : String) (lfs : List String)
    (rest : List (String × List String)) (l₀ : String) (ls : List String)
    (hsec : cfg.linters = none)
    (hget : getLinters cfg lang = .ok (l₀ :: ls)) :
    lint exec cfg useCb reg ((lang, lfs) :: rest) =
      ([], reg, .error (.confError ("Linter not specified for " ++ lang) [(lang, [])])) := by
  have hconf : linterConfGet cfg l₀ = .error (.keyError "linters") := by
    simp only [linterConfGet, hsec]
  have hinner : lintLinters exec cfg useCb lfs reg (l₀ :: ls) =
      ([], reg, .error (.keyError "linters", [])) := by
    simp only [lintLinters, hconf]
  have hlangs := lintLangs_head_innerfail exec cfg useCb reg lang lfs rest _
    [] reg (PyExc.keyError "linters") [] hget hinner
  simp only [lint, hlangs, lintErrMsg]
  simp

/-- A configuration with a well-formed language but no top-level `linters`
section at all. -/
def cfgNoLintersSection : Config :=
  { langs := some [("py", { includes := some ["*.py"], linters := some ["flake8"] })],
    linters := none }

/-- Witness for C9 at a concrete configuration. -/
theorem c9_missing_linters_section_witness :
    cfgNoLintersSection.linters = none
    ∧ getLinters cfgNoLintersSection "py" = .ok ("flake8" :: [])
    ∧ lint execZero cfgNoLintersSection false [] [("py", ["a.py"])] =
        ([], [], .error (.confError ("Linter not specified for " ++ "py") [("py", [])])) :=
  ⟨by decide, by decide,
    c9_missing_linters_section execZero false [] cfgNoLintersSection "py" ["a.py"] []
      "flake8" [] (by decide) (by decide)⟩


/-! ### `AutoLint.run_linter`: reporting modes and summary code -/

/-- The `print_all` scan of `run_linter`: sets the summary code to 1 when
any result anywhere in the tree has a nonzero exit code. -/
def anyFailTree (t : ResultTree) : Bool :=
  t.any (fun lp => lp.2.any (fun rp => rp.2.any (fun fp => fp.2.1 != 0)))

/-- The failed-file total computed by `__pretty_print`: across languages
and linters, the number of per-file results with a nonzero exit code. -/
def countFailTree (t : ResultTree) : Nat :=
  t.foldl (fun acc lp =>
    acc + lp.2.foldl (fun a rp =>
      a + (rp.2.filter (fun fp => fp.2.1 != 0)).length) 0) 0

/-- What `run_linter` raises: a propagated `AutoLintConfError`, the
`AttributeError` of the silent mode's `results.itervalues()` call (absent
on a Python 3 `dict`), or an uncaught `NotImplementedError`. -/
inductive RunErr where
  | confError (msg : String)
  | attributeError
  | notImplementedError
deriving DecidableEq, Repr

/-- `AutoLint.run_linter(pretty_print, print_all)` downstream of file
discovery: `files` is the traversal-and-ignore-filtered file list (both
steps are external capabilities, out of the claims' scope).  Classify,
dispatch with the streaming callback exactly when `print_all` is set, then
report: `print_all` scans for any nonzero exit code; `pretty_print`
returns 1 iff the failed-file total is positive; the silent fallback calls
`results.itervalues()`, which a Python 3 `dict` does not have, raising
`AttributeError` before any aggregation. -/
def run_linter (exec : Exec) (matchFn : Matcher) (reg : Registry) (cfg : Config)
    (files : List String) (prettyPrint printAll : Bool) :
    List Ev × Except RunErr (Int × ResultTree) :=
  match classify_files matchFn cfg files with
  | .error msg => ([], .error (.confError msg))
  | .ok classified =>
    let r := lint exec cfg printAll reg classified
    match r.2.2 with
    | .error (.confError msg _) => (r.1, .error (.confError msg))
    | .error .notImplementedError => (r.1, .error .notImplementedError)
    | .ok results =>
      if printAll then (r.1, .ok (if anyFailTree results then 1 else 0, results))
      else if prettyPrint then
        (r.1, .ok (if countFailTree results > 0 then 1 else 0, results))
      else (r.1, .error .attributeError)

/-- The configuration of the spec's single-language scenario. -/
def cfgPy : Config :=
  { langs := some [("py", { includes := some ["*.py"], linters := some ["flake8"] })],
    linters := some [("flake8", { cmd := "flake8", flags := none, runner := none })] }

/-- A glob oracle matching every pattern. -/
def matchAll : Matcher := fun _ _ => true

/-- A glob oracle matching no pattern. -/
def matchNone : Matcher := fun _ _ => false

/-- An execution oracle whose every invocation fails with exit code 1. -/
def execFail : Exec := fun _ => (1, "msg", "")

/-- CLAIM C1 (divergence witness).  In the `print_all` and `pretty_print`
modes `run_linter` returns the claimed (1-iff-any-nonzero, full tree)
tuple, but in the silent mode — both flags unset — it raises
`AttributeError` instead of returning anything, on failing and on clean
runs alike: the Python 3 `dict` has no `itervalues` method. -/
theorem c1_silent_mode_attribute_error :
    (run_linter execFail matchAll [] cfgPy ["a.py"] false false).2 =
      .error RunErr.attributeError
    ∧ (run_linter execZero matchAll [] cfgPy ["a.py"] false false).2 =
      .error RunErr.attributeError
    ∧ (run_linter execFail matchAll [] cfgPy ["a.py"] false true).2 =
      .ok (1, [("py", [("flake8", [("a.py", (1, "msg", ""))])])])
    ∧ anyFailTree [("py", [("flake8", [("a.py", (1, "msg", ""))])])] = true
    ∧ (run_linter execZero matchAll [] cfgPy ["a.py"] true false).2 =
      .ok (0, [("py", [("flake8", [("a.py", (0, "out", ""))])])])
    ∧ anyFailTree [("py", [("flake8", [("a.py", (0, "out", ""))])])] = false :=
  ⟨by decide, by decide, by decide, by decide, by decide, by decide⟩

/-! ### Empty classification (C10) -/

theorem setUpdateMatches_nomatch (matchFn : Matcher) (p : String) :
    ∀ (files s : List String), (∀ f ∈ files, matchFn f p = false) →
      setUpdateMatches matchFn files s p = s
  | [], _, _ => rfl
  | f :: rest, s, h => by
    unfold setUpdateMatches
    simp only [List.foldl_cons, h f (List.mem_cons_self f rest), Bool.false_eq_true,
      if_false]
    exact setUpdateMatches_nomatch matchFn p rest s
      (fun g hg => h g (List.mem_cons_of_mem f hg))

theorem classifyLang_foldl_nomatch (matchFn : Matcher) (files : List String) :
    ∀ (pats : List String), (∀ p ∈ pats, ∀ f ∈ files, matchFn f p = false) →
      pats.foldl (fun s p => setUpdateMatches matchFn files s p) [] = []
  | [], _ => rfl
  | p :: rest, h => by
    simp only [List.foldl_cons]
    rw [setUpdateMatches_nomatch matchFn p files [] (h p (List.mem_cons_self p rest))]
    exact classifyLang_foldl_nomatch matchFn files rest
      (fun q hq => h q (List.mem_cons_of_mem p hq))

theorem classifyLangs_nomatch (matchFn : Matcher) (files : List String) :
    ∀ (ls : List (String × LangConf)),
      (∀ e ∈ ls, ∃ pats, (e : String × LangConf).2.includes = some pats ∧
        ∀ p ∈ pats, ∀ f ∈ files, matchFn f p = false) →
      classifyLangs matchFn files ls = .ok []
  | [], _ => rfl
  | (lang0, conf0) :: rest, h => by
    obtain ⟨pats, hinc, hnm⟩ := h (lang0, conf0) (List.mem_cons_self _ _)
    dsimp only at hinc
    have hrest := classifyLangs_nomatch matchFn files rest
      (fun e he => h e (List.mem_cons_of_mem _ he))
    have hfold := classifyLang_foldl_nomatch matchFn files pats hnm
    simp only [classifyLangs, classifyLang, hinc, hfold, hrest, List.isEmpty_nil,
      if_true]

/-- CLAIM C10.  When no file matches any language's include patterns (in
particular when the file list is empty), classification returns the empty
mapping, dispatch returns the empty result tree with no subprocess
spawned, and `run_linter` returns summary code 0 with that empty tree in
both the `print_all` and the `pretty_print` modes. -/
theorem c10_no_match_empty_run (exec : Exec) (matchFn : Matcher) (reg : Registry)
    (cfg : Config) (files : List String) (ls : List (String × LangConf))
    (hl : cfg.langs = some ls)
    (hf : ∀ e ∈ ls, ∃ pats, (e : String × LangConf).2.includes = some pats ∧
      ∀ p ∈ pats, ∀ f ∈ files, matchFn f p = false) :
    classify_files matchFn cfg files = .ok []
    ∧ lint exec cfg true reg [] = ([], reg, .ok [])
    ∧ run_linter exec matchFn reg cfg files false true = ([], .ok (0, []))
    ∧ run_linter exec matchFn reg cfg files true false = ([], .ok (0, [])) := by
  have hclass : classify_files matchFn cfg files = .ok [] := by
    simp only [classify_files, hl, classifyLangs_nomatch matchFn files ls hf]
  refine ⟨hclass, rfl, ?_, ?_⟩
  · simp only [run_linter, hclass, lint, lintLangs]
    rfl
  · simp only [run_linter, hclass, lint, lintLangs]
    rfl

/-- Witness for C10: a target with one file that no pattern matches. -/
theorem c10_no_match_empty_run_witness :
    cfgPy.langs = some [("py", { includes := some ["*.py"], linters := some ["flake8"] })]
    ∧ (∀ e ∈ [("py", ({ includes := some ["*.py"], linters := some ["flake8"] } : LangConf))],
        ∃ pats, (e : String × LangConf).2.includes = some pats ∧
          ∀ p ∈ pats, ∀ f ∈ (["a.txt"] : List String), matchNone f p = false)
    ∧ (classify_files matchNone cfgPy ["a.txt"] = .ok []
       ∧ lint execZero cfgPy true [] [] = ([], [], .ok [])
       ∧ run_linter execZero matchNone [] cfgPy ["a.txt"] false true = ([], .ok (0, []))
       ∧ run_linter execZero matchNone [] cfgPy ["a.txt"] true false = ([], .ok (0, []))) :=
  ⟨rfl, by decide,
    c10_no_match_empty_run execZero matchNone [] cfgPy ["a.txt"]
      [("py", { includes := some ["*.py"], linters := some ["flake8"] })] rfl (by decide)⟩


/-! ### `AutoLint.__init__`: construction-time validation -/

/-- The filesystem and parser capabilities `__init__` consults:
`os.path.isdir`, `os.path.isfile`, `os.path.expanduser`, and the composite
`open` + `yaml.safe_load` of `__load_configuration`. -/
structure FS where
  isDir : String → Bool
  isFile : String → Bool
  expanduser : String → String
  parseConfig : String → Except String Config

/-- What construction can raise: an `AutoLintIOError` on a path check, or
a parse failure (`yaml.YAMLError`) propagating out of
`__load_configuration`. -/
inductive InitErr where
  | ioError (msg : String)
  | parseError (msg : String)
deriving DecidableEq, Repr

/-- The state of a successfully constructed `AutoLint` object. -/
structure AutoLintState where
  target : String
  configuration : String
  ignore_file : Option String
  configuration_dict : Config
deriving DecidableEq, Repr

/-- The configuration path used when construction succeeds: the expanded
explicit path when one was given, else the bundled default
(`get_default_conf_path`). -/
def resolvedConfPath (fs : FS) (dflt : String) : Option String → String
  | none => dflt
  | some c => fs.expanduser c

/-- `AutoLint.__init__(target, configuration, ignore_file)`: validate the
target directory, the explicit configuration path, and the explicit ignore
path in that order, then eagerly load and parse the configuration file. -/
def AutoLint.init (fs : FS) (dflt target : String)
    (configuration ignore_file : Option String) : Except InitErr AutoLintState :=
  let target_path := fs.expanduser target
  if ¬ fs.isDir target_path then
    .error (.ioError ("Expecting a dir but got " ++ target))
  else
    match (match configuration with
      | none => Except.ok none
      | some c =>
        if ¬ fs.isFile (fs.expanduser c) then
          Except.error (InitErr.ioError ("Expecting a file as configuration, but got " ++ c))
        else Except.ok (some (fs.expanduser c))) with
    | .error e => .error e
    | .ok confOpt =>
      let confPath := match confOpt with | some cp => cp | none => dflt
      match (match ignore_file with
        | none => Except.ok none
        | some i =>
          if ¬ fs.isFile (fs.expanduser i) then
            Except.error (InitErr.ioError ("Expecting a ignore file, but got " ++ i))
          else Except.ok (some (fs.expanduser i))) with
      | .error e => .error e
      | .ok ignoreOpt =>
        match fs.parseConfig confPath with
        | .error m => .error (.parseError m)
        | .ok cfgd =>
          .ok { target := target_path, configuration := confPath,
                ignore_file := ignoreOpt, configuration_dict := cfgd }

/-- CLAIM C7.  Construction raises an `AutoLintIOError` before any linting
work when the target is not a directory, or an explicit configuration or
ignore path is not a regular file; when construction succeeds the held
configuration dictionary is exactly the parse of the held configuration
path, and a parse failure of the resolved configuration file surfaces at
construction time as an error. -/
theorem c7_construction_validation (fs : FS) (dflt target : String)
    (configuration ignore_file : Option String) :
    (fs.isDir (fs.expanduser target) = false →
      AutoLint.init fs dflt target configuration ignore_file =
        .error (.ioError ("Expecting a dir but got " ++ target)))
    ∧ (∀ c, configuration = some c → fs.isDir (fs.expanduser target) = true →
        fs.isFile (fs.expanduser c) = false →
        AutoLint.init fs dflt target configuration ignore_file =
          .error (.ioError ("Expecting a file as configuration, but got " ++ c)))
    ∧ (∀ i, ignore_file = some i → fs.isDir (fs.expanduser target) = true →
        (configuration = none ∨
          ∃ c, configuration = some c ∧ fs.isFile (fs.expanduser c) = true) →
        fs.isFile (fs.expanduser i) = false →
        AutoLint.init fs dflt target configuration ignore_file =
          .error (.ioError ("Expecting a ignore file, but got " ++ i)))
    ∧ (∀ st, AutoLint.init fs dflt target configuration ignore_file = .ok st →
        fs.parseConfig st.configuration = .ok st.configuration_dict)
    ∧ (∀ m, fs.isDir (fs.expanduser target) = true →
        (configuration = none ∨
          ∃ c, configuration = some c ∧ fs.isFile (fs.expanduser c) = true) →
        (ignore_file = none ∨
          ∃ i, ignore_file = some i ∧ fs.isFile (fs.expanduser i) = true) →
        fs.parseConfig (resolvedConfPath fs dflt configuration) = .error m →
        AutoLint.init fs dflt target configuration ignore_file =
          .error (.parseError m)) := by
  refine ⟨?_, ?_, ?_, ?_, ?_⟩
  · intro hdir
    simp [AutoLint.init, hdir]
  · intro c hc hdir hfile
    subst hc
    simp [AutoLint.init, hdir, hfile]
  · intro i hi hdir hconf hfile
    subst hi
    rcases hconf with hnone | ⟨c, hc, hcf⟩
    · subst hnone
      simp [AutoLint.init, hdir, hfile]
    · subst hc
      simp [AutoLint.init, hdir, hcf, hfile]
  · intro st hok
    by_cases hdir : fs.isDir (fs.expanduser target)
    · cases hc : configuration with
      | none =>
        subst hc
        cases hign : ignore_file with
        | none =>
          subst hign
          cases hp : fs.parseConfig dflt with
          | error m => simp [AutoLint.init, hdir, hp] at hok
          | ok cfgd =>
            simp [AutoLint.init, hdir, hp] at hok
            rw [← hok]
            exact hp
        | some i =>
          subst hign
          by_cases hif : fs.isFile (fs.expanduser i)
          · cases hp : fs.parseConfig dflt with
            | error m => simp [AutoLint.init, hdir, hif, hp] at hok
            | ok cfgd =>
              simp [AutoLint.init, hdir, hif, hp] at hok
              rw [← hok]
              exact hp
          · simp [AutoLint.init, hdir, hif] at hok
      | some c =>
        subst hc
        by_cases hcf : fs.isFile (fs.expanduser c)
        · cases hign : ignore_file with
          | none =>
            subst hign
            cases hp : fs.parseConfig (fs.expanduser c) with
            | error m => simp [AutoLint.init, hdir, hcf, hp] at hok
            | ok cfgd =>
              simp [AutoLint.init, hdir, hcf, hp] at hok
              rw [← hok]
              exact hp
          | some i =>
            subst hign
            by_cases hif : fs.isFile (fs.expanduser i)
            · cases hp : fs.parseConfig (fs.expanduser c) with
              | error m => simp [AutoLint.init, hdir, hcf, hif, hp] at hok
              | ok cfgd =>
                simp [AutoLint.init, hdir, hcf, hif, hp] at hok
                rw [← hok]
                exact hp
            · simp [AutoLint.init, hdir, hcf, hif] at hok
        · simp [AutoLint.init, hdir, hcf] at hok
    · simp [AutoLint.init, hdir] at hok
  · intro m hdir hconf hign hp
    rcases hconf with hnone | ⟨c, hc, hcf⟩
    · subst hnone
      simp only [resolvedConfPath] at hp
      rcases hign with hinone | ⟨i, hi, hif⟩
      · subst hinone
        simp [AutoLint.init, hdir, hp]
      · subst hi
        simp [AutoLint.init, hdir, hif, hp]
    · subst hc
      simp only [resolvedConfPath] at hp
      rcases hign with hinone | ⟨i, hi, hif⟩
      · subst hinone
        simp [AutoLint.init, hdir, hcf, hp]
      · subst hi
        simp [AutoLint.init, hdir, hcf, hif, hp]

/-- A concrete filesystem for the C7 witness: `/repo` is the only
directory, `/cfg.yml` the only file, and parsing any path yields `cfgPy`. -/
def fsW : FS :=
  { isDir := fun p => p = "/repo",
    isFile := fun p => p = "/cfg.yml",
    expanduser := fun p => p,
    parseConfig := fun _ => .ok cfgPy }

/-- The state a successful construction over `fsW` produces. -/
def stW : AutoLintState :=
  { target := "/repo", configuration := "/cfg.yml", ignore_file := none,
    configuration_dict := cfgPy }

/-- Witness for C7: a missing target raises the directory IOError, and a
successful construction holds the parsed configuration, with the
hypotheses discharged at concrete paths. -/
theorem c7_construction_validation_witness :
    AutoLint.init fsW "/dflt.yml" "/nope" (some "/cfg.yml") none =
      .error (.ioError ("Expecting a dir but got " ++ "/nope"))
    ∧ fsW.parseConfig stW.configuration = .ok stW.configuration_dict :=
  ⟨(c7_construction_validation fsW "/dflt.yml" "/nope" (some "/cfg.yml") none).1 (by decide),
   (c7_construction_validation fsW "/dflt.yml" "/repo" (some "/cfg.yml") none).2.2.2.1
     stW (by decide)⟩

end Autolint
